import Mathlib

/-!
Shallow embedding of the `dual_game` repository (Rust), covering the parts
of the code that the verified claims are about:

* `src/scoring.rs`  — `ScoringCalculator::{calculate_score, calculate_average, difference}`
* `src/utils.rs`    — free function `calculate_score` (i32 variant)
* `src/counter.rs`  — the tick loop of `Counter::run` and its stop protocol
* `src/game.rs`     — `Game::play_turn`

Machine integers are modelled as `Nat` (for `u32`) and `Int` (for `i32`)
with explicit wrap-around modulo `2^32` where the Rust release-mode
semantics wraps; operations that panic in Rust (division by zero,
`i32` overflowing division) are modelled with `Option`, `none` standing
for the panic/abort path.
-/

namespace DualGame

/-- The modulus of Rust's `u32` arithmetic. -/
def u32Mod : Nat := 2 ^ 32

/-- Rust `u32` addition (release semantics: wrap on overflow). -/
def wadd (a b : Nat) : Nat := (a + b) % u32Mod

/-- Rust `u32` subtraction `a - b` (release semantics: wrap on underflow),
for operands `a b < u32Mod`. -/
def wsub (a b : Nat) : Nat := (a + u32Mod - b) % u32Mod

/-! ### `src/scoring.rs` -/

/-- Embeds `ScoringCalculator::difference` (src/scoring.rs lines 78–90): the
wrap-aware distance between `objective` and `counter_value`.

```rust
let diff = if counter_value >= objective { counter_value - objective }
           else { objective - counter_value };
let wrap_diff = if counter_value > objective { objective + (100 - counter_value) }
                else { counter_value + (100 - objective) };
diff.min(wrap_diff)
``` -/
def difference (objective counter_value : Nat) : Nat :=
  let diff :=
    if counter_value ≥ objective then wsub counter_value objective
    else wsub objective counter_value
  let wrap_diff :=
    if counter_value > objective then wadd objective (wsub 100 counter_value)
    else wadd counter_value (wsub 100 objective)
  min diff wrap_diff

/-- Embeds `ScoringCalculator::calculate_score` (src/scoring.rs lines 32–48).
`none` models the division-by-zero panic (only reachable when
`miss + 1` wraps to `0`).

```rust
let diff = Self::difference(objective, counter_value);
let base = if diff == 0 { 100 } else if diff <= 5 { 80 } else if diff <= 10 { 60 }
           else if diff <= 20 { 40 } else if diff <= 50 { 20 } else { 0 };
(base + strength) / (miss + 1)
``` -/
def calculate_score (objective counter_value miss strength : Nat) : Option Nat :=
  let diff := difference objective counter_value
  let base :=
    if diff = 0 then 100
    else if diff ≤ 5 then 80
    else if diff ≤ 10 then 60
    else if diff ≤ 20 then 40
    else if diff ≤ 50 then 20
    else 0
  let den := wadd miss 1
  if den = 0 then none else some (wadd base strength / den)

/-- Embeds `ScoringCalculator::calculate_average` (src/scoring.rs lines 59–63).

```rust
let sum: u32 = scores.iter().sum();
let avg = (sum as f64 / scores.len() as f64).ceil() as u32;
```

The `u32` sum wraps modulo `2^32`; the `f64` computation is modelled
exactly in `ℚ`: both `sum` and `len` are below `2^32 ≤ 2^53` so their
`f64` images are exact, and the rounding error of the `f64` division is
smaller than `1 / len`, so `ceil` of the rounded quotient equals the
exact rational ceiling. For the empty slice Rust computes
`0.0 / 0.0 = NaN` and `NaN.ceil() as u32 = 0`; the embedding likewise
yields `0` (`ℚ` division by zero is `0`). -/
def calculate_average (scores : List Nat) : Nat :=
  Int.toNat ⌈((scores.sum % u32Mod : Nat) : ℚ) / (scores.length : ℚ)⌉

/-! ### `src/utils.rs` -/

/-- Reduce an `Int` into the value range of Rust's `i32`
(release-mode wrap-around). -/
def i32wrap (x : Int) : Int := (x + 2 ^ 31) % 2 ^ 32 - 2 ^ 31

/-- Rust's cast `u32 as i32` (bit-reinterpreting). -/
def u32_as_i32 (n : Nat) : Int := i32wrap n

/-- The least `i32` value. -/
def i32Min : Int := -(2 ^ 31)

/-- Rust `i32` division: panics (`none`) on a zero divisor and on the
overflowing case `i32::MIN / -1`; otherwise truncates toward zero. -/
def i32div (a b : Int) : Option Int :=
  if b = 0 then none
  else if a = i32Min ∧ b = -1 then none
  else some (a.tdiv b)

/-- Free function `calculate_score` (src/utils.rs lines 25–34).

```rust
match diff {
    0 => (100 + strength) / (miss as i32 + 1),
    1..=5 => (80 + strength) / (miss as i32 + 1),
    6..=10 => (60 + strength) / (miss as i32 + 1),
    11..=20 => (40 + strength) / (miss as i32 + 1),
    21..=50 => (20 + strength) / (miss as i32 + 1),
    _ => strength / (miss as i32 + 1),
}
``` -/
def utils_calculate_score (diff miss : Nat) (strength : Int) : Option Int :=
  let den := i32wrap (u32_as_i32 miss + 1)
  if diff = 0 then i32div (i32wrap (100 + strength)) den
  else if diff ≤ 5 then i32div (i32wrap (80 + strength)) den
  else if diff ≤ 10 then i32div (i32wrap (60 + strength)) den
  else if diff ≤ 20 then i32div (i32wrap (40 + strength)) den
  else if diff ≤ 50 then i32div (i32wrap (20 + strength)) den
  else i32div strength den

/-! ### `src/counter.rs`

The background thread of `Counter::run` (lines 57–77) owns a pair
`(counter, miss)` and loops: it first polls the stop channel
(`rx.try_recv()`), returning the current pair if the signal has been
observed, and otherwise prints the state, performs one tick and sleeps.
A tick is

```rust
counter = (counter + 1) % 101;
if counter == 0 { miss += 1; }
```

The state is embedded directly; the schedule of stop-signal observation
is abstracted as a boolean trace over loop iterations. -/

/-- The length of the counter's cycle: `counter` is updated modulo `101`
(`counter = (counter + 1) % 101` in src/counter.rs line 70), so it
ranges over `0..=100`. -/
def cycleLength : Nat := 101

/-- The private state of the counter thread. -/
structure CounterState where
  counter : Nat
  miss : Nat
deriving Repr, DecidableEq

/-- The state at thread start: `let mut counter = 0; let mut miss = 0;`. -/
def initialState : CounterState := ⟨0, 0⟩

/-- One tick of the loop body (src/counter.rs lines 69–74): increment
the counter modulo `cycleLength` and bump `miss` (a `u32`, hence the
wrap) when the counter comes back to `0`. -/
def tick (s : CounterState) : CounterState :=
  let c := (s.counter + 1) % cycleLength
  { counter := c, miss := if c = 0 then (s.miss + 1) % u32Mod else s.miss }

/-- The counter state after `t` ticks have been processed. -/
def stateAfter : Nat → CounterState
  | 0 => initialState
  | t + 1 => tick (stateAfter t)

/-- The pair `(counter_value, miss)` that `Counter::run` returns when the
background thread observes the stop signal after processing `t` ticks. -/
def runTicks (t : Nat) : Nat × Nat :=
  ((stateAfter t).counter, (stateAfter t).miss)

/-- The thread loop of `Counter::run`, made explicit over the schedule of
stop-signal observation: `signal i` tells whether `rx.try_recv()` at the
top of iteration `i` sees the stop signal. The loop returns the current
state as soon as the signal is observed and otherwise ticks once and
continues; `fuel` bounds the number of iterations modelled, `none`
standing for a loop that has not yet observed the signal. -/
def loopRun (signal : Nat → Bool) : Nat → Nat → CounterState → Option CounterState
  | 0, _, _ => none
  | fuel + 1, i, s => if signal i then some s else loopRun signal fuel (i + 1) (tick s)

/-- The outcome of the blocking `io::stdin().read_line(&mut dummy)` on
the parent side of `Counter::run` (src/counter.rs line 81). -/
inductive ReadResult where
  | ok : ReadResult
  | err : ReadResult
deriving Repr, DecidableEq

/-- The tail of `Counter::run` (src/counter.rs lines 79–88): the result
of the blocking read is discarded (`let _ = io::stdin().read_line(..)`),
the stop signal is sent unconditionally, the thread is joined, and its
final pair is returned. `r` is the outcome of the read and `t` the
number of ticks the thread processed before observing the signal;
`none` would model an aborted turn, a path this code never takes. -/
def runWithRead (r : ReadResult) (t : Nat) : Option (Nat × Nat) :=
  match r with
  | .ok => some (runTicks t)
  | .err => some (runTicks t)

/-! ### `src/game.rs` -/

/-- Embeds `Game::play_turn` (src/game.rs lines 206–227): for each objective a
counter is run with the player's speed and the score for that objective
is computed; the pair `(average, scores)` is then returned. The
nondeterministic environment (when the player stops each counter) is
abstracted as `env : Nat → Nat`, the number of ticks processed for the
`i`-th objective. The Rust function returns `Result` but has no error
path of its own; `none` is only inherited from a panicking
`calculate_score`. -/
def play_turn (env : Nat → Nat) (objectives : List Nat) (strength : Nat) :
    Option (Nat × List Nat) := do
  let scores ← objectives.enum.mapM fun p =>
    calculate_score p.2 (runTicks (env p.1)).1 (runTicks (env p.1)).2 strength
  some (calculate_average scores, scores)

/-! ### Specification-side definitions -/

/-- The ScoreTier table as the spec states it:
`{0:100, 1-5:80, 6-10:60, 11-20:40, 21-50:20, >50:0}`. -/
def specTierBase (d : Nat) : Nat :=
  if d = 0 then 100
  else if 1 ≤ d ∧ d ≤ 5 then 80
  else if 6 ≤ d ∧ d ≤ 10 then 60
  else if 11 ≤ d ∧ d ≤ 20 then 40
  else if 21 ≤ d ∧ d ≤ 50 then 20
  else 0

/-- A concrete stop-signal schedule: the signal is observed at loop
iteration `2`. -/
def exampleSignal : Nat → Bool := fun i => i == 2

/-! ## Helper lemmas -/

/-- The ceiling of the exact rational quotient of two naturals is the
rounded-up integer division. -/
lemma rat_ceil_natCast_div (a b : Nat) (hb : 0 < b) :
    ⌈(a : ℚ) / (b : ℚ)⌉ = (((a + b - 1) / b : Nat) : Int) := by
  have hq := Nat.div_add_mod (a + b - 1) b
  have hr : (a + b - 1) % b < b := Nat.mod_lt _ hb
  set q := (a + b - 1) / b with hqdef
  set r := (a + b - 1) % b with hrdef
  have hab : 1 ≤ a + b := by omega
  have key : (b : ℚ) * q + r = a + b - 1 := by
    have h1 : b * q + r = a + b - 1 := hq
    have h2 : (((a + b - 1 : Nat)) : ℚ) = (a : ℚ) + b - 1 := by
      push_cast [Nat.cast_sub hab]
      ring
    rw [← h2, ← h1]
    push_cast
    ring
  have hbq : (0 : ℚ) < b := by exact_mod_cast hb
  have hrq1 : (r : ℚ) + 1 ≤ b := by exact_mod_cast hr
  have hrq0 : (0 : ℚ) ≤ r := by positivity
  have hcomm : (q : ℚ) * b = (b : ℚ) * q := mul_comm _ _
  rw [Int.ceil_eq_iff]
  constructor
  · rw [lt_div_iff₀ hbq]
    push_cast
    linarith [key, hcomm]
  · rw [div_le_iff₀ hbq]
    push_cast
    linarith [key, hcomm]

/-- The tier chain of `calculate_score` computes the spec's ScoreTier
table. -/
lemma sourceBase_eq_spec (d : Nat) :
    (if d = 0 then 100
     else if d ≤ 5 then 80
     else if d ≤ 10 then 60
     else if d ≤ 20 then 40
     else if d ≤ 50 then 20
     else 0) = specTierBase d := by
  unfold specTierBase
  split_ifs <;> omega

/-- The spec's tier table never exceeds `100`. -/
lemma specTierBase_le (d : Nat) : specTierBase d ≤ 100 := by
  unfold specTierBase
  split_ifs <;> omega

/-- Closed form of the counter thread's state after `t` ticks. -/
lemma stateAfter_spec (t : Nat) :
    (stateAfter t).counter = t % cycleLength ∧
      (stateAfter t).miss = (t / cycleLength) % u32Mod := by
  induction t with
  | zero => simp [stateAfter, initialState, cycleLength, u32Mod]
  | succ t ih =>
    obtain ⟨h1, h2⟩ := ih
    simp only [stateAfter, tick, h1, h2, cycleLength, u32Mod] at *
    constructor
    · omega
    · split_ifs <;> omega

/-- Unrolling `stateAfter` is iteration of `tick` from the initial state. -/
lemma stateAfter_eq_iterate (t : Nat) : stateAfter t = tick^[t] initialState := by
  induction t with
  | zero => rfl
  | succ t ih => rw [stateAfter, ih, Function.iterate_succ_apply']

/-- If the stop signal is first observed at iteration `k + n`, the loop
returns the state reached after exactly `n` further ticks. -/
lemma loopRun_first_signal (signal : Nat → Bool) :
    ∀ n fuel k : Nat, ∀ s : CounterState, n < fuel →
      (∀ j, j < n → signal (k + j) = false) → signal (k + n) = true →
      loopRun signal fuel k s = some (tick^[n] s) := by
  intro n
  induction n with
  | zero =>
    intro fuel k s hfuel _ hsig
    match fuel, hfuel with
    | fuel + 1, _ =>
      simp only [loopRun]
      rw [if_pos (by simpa using hsig)]
      rfl
  | succ n ih =>
    intro fuel k s hfuel hbefore hsig
    match fuel, hfuel with
    | fuel + 1, hfuel =>
      simp only [loopRun]
      rw [if_neg (by simpa using hbefore 0 (by omega))]
      rw [ih fuel (k + 1) (tick s) (by omega)
        (fun j hj => by simpa [Nat.add_assoc, Nat.add_comm 1 j] using hbefore (j + 1) (by omega))
        (by simpa [Nat.add_assoc, Nat.add_comm 1 n] using hsig)]
      rw [Function.iterate_succ_apply]

/-- Signed division of two nonnegative in-range values is `Nat` division. -/
lemma i32div_of_nat (a b : Nat) (hb : 0 < b) :
    i32div (a : Int) (b : Int) = some ((a / b : Nat) : Int) := by
  unfold i32div i32Min
  rw [if_neg (by exact_mod_cast Nat.pos_iff_ne_zero.mp hb), if_neg (by rintro ⟨h1, h2⟩; omega)]
  rfl

/-- The common branch shape of `utils_calculate_score` against the
branch shape of `calculate_score`, for a tier base `B ≤ 100`. -/
lemma utils_branch (B m s : Nat) (hB : B ≤ 100) (hm : m + 1 < 2 ^ 31)
    (hs : s + 100 < 2 ^ 31) :
    i32div (i32wrap ((B : Int) + (s : Int))) ((m : Int) + 1) =
      some (((wadd B s / wadd m 1 : Nat)) : Int) := by
  have e1 : i32wrap ((B : Int) + (s : Int)) = (((B + s : Nat)) : Int) := by
    unfold i32wrap
    push_cast
    omega
  have e2 : ((m : Int) + 1) = (((m + 1 : Nat)) : Int) := by push_cast; ring
  have e3 : wadd B s = B + s := by unfold wadd u32Mod; omega
  have e4 : wadd m 1 = m + 1 := by unfold wadd u32Mod; omega
  rw [e1, e2, i32div_of_nat _ _ (by omega), e3, e4]

/-! ## Claim theorems -/

/-- C1: for every objective, counter value, miss and strength (in the
`u32` range, with the additions non-overflowing), `calculate_score`
returns the tier base of the wrap-aware distance plus the strength,
divided by `miss + 1` with truncating integer division; in particular
the score at `(0, 0, 0, 50)` is `150` and at distance `30` with
`miss = 2`, `strength = 50` it is `23`. -/
theorem calculate_score_tier_formula :
    (∀ objective counter_value miss strength : Nat,
        objective < u32Mod → counter_value < u32Mod → miss + 1 < u32Mod →
        strength + 100 < u32Mod →
        calculate_score objective counter_value miss strength =
          some ((specTierBase (difference objective counter_value) + strength) / (miss + 1))) ∧
    calculate_score 0 0 0 50 = some 150 ∧
    difference 30 0 = 30 ∧ calculate_score 30 0 2 50 = some 23 := by
  refine ⟨?_, by decide, by decide, by decide⟩
  intro o c m s ho hc hm hs
  simp only [calculate_score]
  rw [sourceBase_eq_spec]
  have h1 : wadd m 1 = m + 1 := by unfold wadd u32Mod at *; omega
  have h2 : wadd (specTierBase (difference o c)) s = specTierBase (difference o c) + s := by
    have := specTierBase_le (difference o c)
    unfold wadd u32Mod at *
    omega
  rw [h1, h2, if_neg (show ¬ m + 1 = 0 by omega)]

/-- Witness for C1 at `(15, 95, 1, 30)`: distance `20`, tier `40`,
`(40 + 30) / 2 = 35`. -/
theorem calculate_score_tier_formula_witness : calculate_score 15 95 1 30 = some 35 := by
  have h := calculate_score_tier_formula.1 15 95 1 30 (by decide) (by decide) (by decide)
    (by decide)
  rw [h]
  decide

/-- C2: for targets and values in `[0, 100)`, `difference` is the
wrap-aware distance `min (|value - target|) (100 - |value - target|)`,
is symmetric, and is at most `50`; in particular
`difference 15 95 = 20`. -/
theorem difference_wrap_distance :
    (∀ target value : Nat, target < 100 → value < 100 →
        difference target value =
            min (((value : Int) - (target : Int)).natAbs)
              (100 - ((value : Int) - (target : Int)).natAbs) ∧
          difference target value = difference value target ∧
          difference target value ≤ 50) ∧
    difference 15 95 = 20 := by
  refine ⟨?_, by decide⟩
  intro t v ht hv
  refine ⟨?_, ?_, ?_⟩ <;>
    · simp only [difference, wadd, wsub, u32Mod]
      split_ifs <;> omega

/-- Witness for C2 at `(15, 95)`. -/
theorem difference_wrap_distance_witness :
    difference 15 95 =
        min ((((95 : Nat) : Int) - ((15 : Nat) : Int)).natAbs)
          (100 - (((95 : Nat) : Int) - ((15 : Nat) : Int)).natAbs) ∧
      difference 15 95 = difference 95 15 ∧ difference 15 95 ≤ 50 :=
  difference_wrap_distance.1 15 95 (by decide) (by decide)

set_option maxRecDepth 10000 in
/-- C3 counterexample: a run stopped after exactly `100` ticks returns
counter value `100`, which is not in `[0, 100)`: the update
`counter = (counter + 1) % 101` lets the counter reach `100`. -/
theorem counter_value_can_reach_100 : ¬ (runTicks 100).1 < 100 := by decide

/-- C3 amended: for every run of the counter, the counter value in the
returned `(counter_value, miss)` pair lies in `[0, 101)`, i.e. is at
most `100`. -/
theorem runTicks_value_le_100 : ∀ t : Nat, (runTicks t).1 ≤ 100 := by
  intro t
  have h := (stateAfter_spec t).1
  simp only [runTicks, h, cycleLength]
  omega

/-- C4 counterexample: on empty input neither operation fails —
`calculate_average` of the empty list silently returns `0` (in Rust,
`(0.0 / 0.0).ceil() as u32 = 0`) and `play_turn` with an empty
objectives list returns `Ok((0, []))`, calling the average on the
empty score list. -/
theorem empty_input_no_failure :
    calculate_average [] = 0 ∧ play_turn (fun _ => 0) [] 50 = some (0, []) := by
  have h0 : calculate_average [] = 0 := by simp [calculate_average]
  refine ⟨h0, ?_⟩
  show some (calculate_average [], []) = some (0, [])
  rw [h0]

/-- C4 amended: on empty input the averaging and turn operations
silently return zero: `calculate_average []` is `0`, and `play_turn`
with an empty objectives list succeeds with `(0, [])` for every
environment and strength. -/
theorem empty_input_returns_zero :
    ∀ (env : Nat → Nat) (strength : Nat),
      calculate_average [] = 0 ∧ play_turn env [] strength = some (0, []) := by
  intro env strength
  have h0 : calculate_average [] = 0 := by simp [calculate_average]
  refine ⟨h0, ?_⟩
  show some (calculate_average [], []) = some (0, [])
  rw [h0]

/-- C5: for every non-empty list of scores whose `u32` sum does not
overflow, `calculate_average` returns the ceiling of the arithmetic
mean; in particular the average of `[45, 130, 130, 55, 65]` is `85`. -/
theorem calculate_average_ceiling :
    (∀ scores : List Nat, scores ≠ [] → scores.sum < u32Mod →
        calculate_average scores = (scores.sum + scores.length - 1) / scores.length) ∧
    calculate_average [45, 130, 130, 55, 65] = 85 := by
  have main : ∀ scores : List Nat, scores ≠ [] → scores.sum < u32Mod →
      calculate_average scores = (scores.sum + scores.length - 1) / scores.length := by
    intro scores hne hsum
    unfold calculate_average
    rw [Nat.mod_eq_of_lt hsum, rat_ceil_natCast_div _ _ (List.length_pos.2 hne)]
    rw [Int.toNat_natCast]
  refine ⟨main, ?_⟩
  rw [main [45, 130, 130, 55, 65] (by simp) (by norm_num [u32Mod])]
  decide

/-- Witness for C5 at `[10, 11]`: `⌈21 / 2⌉ = 11`. -/
theorem calculate_average_ceiling_witness : calculate_average [10, 11] = 11 := by
  rw [calculate_average_ceiling.1 [10, 11] (by simp) (by norm_num [u32Mod])]
  decide

/-- C6: after `t` ticks have been processed before the stop signal is
observed (with the `u32` miss counter not overflowing), the counter
state satisfies `value = t % cycleLength` and
`miss = t / cycleLength` for the implementation's cycle length `101`,
and the miss count never decreases across ticks. -/
theorem counter_tick_invariant (t : Nat) (h : t / cycleLength < u32Mod) :
    (stateAfter t).counter = t % cycleLength ∧
      (stateAfter t).miss = t / cycleLength ∧
      ∀ s, s ≤ t → (stateAfter s).miss ≤ (stateAfter t).miss := by
  obtain ⟨h1, h2⟩ := stateAfter_spec t
  have hmiss : (stateAfter t).miss = t / cycleLength := by
    rw [h2, Nat.mod_eq_of_lt h]
  refine ⟨h1, hmiss, ?_⟩
  intro s hs
  obtain ⟨_, hs2⟩ := stateAfter_spec s
  have hle : s / cycleLength ≤ t / cycleLength := Nat.div_le_div_right hs
  rw [hs2, hmiss, Nat.mod_eq_of_lt (lt_of_le_of_lt hle h)]
  exact hle

/-- Witness for C6 at `t = 205`: value `3` and miss count `2`. -/
theorem counter_tick_invariant_witness :
    (stateAfter 205).counter = 205 % cycleLength ∧
      (stateAfter 205).miss = 205 / cycleLength :=
  ⟨(counter_tick_invariant 205 (by decide)).1, (counter_tick_invariant 205 (by decide)).2.1⟩

/-- C7: the denominator `miss + 1` of the score computation is at least
`1` for every miss value admissible at the call (any `u32` miss whose
increment does not wrap), so neither `calculate_score` nor the `i32`
variant divides by zero. -/
theorem score_division_never_zero (objective counter_value miss strength : Nat) :
    (miss + 1 < u32Mod →
        0 < wadd miss 1 ∧
          (calculate_score objective counter_value miss strength).isSome = true) ∧
    (miss + 1 < 2 ^ 31 → 0 < i32wrap (u32_as_i32 miss + 1)) := by
  constructor
  · intro h
    have h1 : wadd miss 1 = miss + 1 := by unfold wadd u32Mod at *; omega
    refine ⟨by omega, ?_⟩
    simp only [calculate_score]
    rw [if_neg (by rw [h1]; omega)]
    rfl
  · intro h
    simp only [u32_as_i32, i32wrap]
    omega

/-- Witness for C7 at `miss = 3`. -/
theorem score_division_never_zero_witness :
    (0 < wadd 3 1 ∧ (calculate_score 10 4 3 50).isSome = true) ∧
      0 < i32wrap (u32_as_i32 3 + 1) :=
  ⟨(score_division_never_zero 10 4 3 50).1 (by decide),
    (score_division_never_zero 10 4 3 50).2 (by decide)⟩

/-- C8 counterexample: with a failed read on the stop trigger and zero
ticks, `Counter::run` still returns a normal `(counter_value, miss)`
result instead of aborting — the read's result is discarded by
`let _ = io::stdin().read_line(..)`. -/
theorem read_error_still_stops : ¬ runWithRead ReadResult.err 0 = none := by decide

/-- C8 amended: `Counter::run` ignores the outcome of the blocking read
entirely — for a failed read just as for a successful one it sends the
stop signal and returns the normal `(counter_value, miss)` result. -/
theorem runWithRead_ignores_read_result :
    ∀ (r : ReadResult) (t : Nat), runWithRead r t = some (runTicks t) := by
  intro r t
  cases r <;> rfl

/-- C9: for every schedule on which the stop signal is first observed
at loop iteration `n` (within the modelled fuel), the loop of
`Counter::run` returns exactly the state snapshot after the `n` ticks
processed before the observation: no tick is processed after the stop
intent is observed, while the tick of an iteration that polled the
channel before the signal completes. -/
theorem counter_stop_returns_snapshot (signal : Nat → Bool) (n fuel : Nat)
    (hsig : signal n = true) (hbefore : ∀ j, j < n → signal j = false) (hfuel : n < fuel) :
    loopRun signal fuel 0 initialState = some (stateAfter n) := by
  rw [stateAfter_eq_iterate]
  exact loopRun_first_signal signal n fuel 0 initialState hfuel
    (fun j hj => by simpa using hbefore j hj) (by simpa using hsig)

/-- Witness for C9: the signal observed at iteration `2` yields the
state after exactly two ticks. -/
theorem counter_stop_returns_snapshot_witness :
    loopRun exampleSignal 5 0 initialState = some (stateAfter 2) :=
  counter_stop_returns_snapshot exampleSignal 2 5 (by decide) (by decide) (by decide)

/-- C10: the two score implementations agree — for objectives and
counter values in `[0, 100]` and non-overflowing miss and strength,
the `i32` variant `utils_calculate_score` applied to the wrap-aware
distance returns exactly `ScoringCalculator::calculate_score`. -/
theorem score_implementations_agree (objective counter_value miss strength : Nat)
    (ho : objective ≤ 100) (hc : counter_value ≤ 100)
    (hm : miss + 1 < 2 ^ 31) (hs : strength + 100 < 2 ^ 31) :
    utils_calculate_score (difference objective counter_value) miss (strength : Int) =
      (calculate_score objective counter_value miss strength).map
        (fun n : Nat => (n : Int)) := by
  have hden_i : i32wrap (u32_as_i32 miss + 1) = (miss : Int) + 1 := by
    simp only [u32_as_i32, i32wrap]
    omega
  have hden_u : wadd miss 1 = miss + 1 := by unfold wadd u32Mod; omega
  simp only [utils_calculate_score, calculate_score, hden_i]
  rw [if_neg (show ¬ wadd miss 1 = 0 by rw [hden_u]; omega), Option.map_some']
  split_ifs
  · exact utils_branch 100 miss strength (by omega) hm hs
  · exact utils_branch 80 miss strength (by omega) hm hs
  · exact utils_branch 60 miss strength (by omega) hm hs
  · exact utils_branch 40 miss strength (by omega) hm hs
  · exact utils_branch 20 miss strength (by omega) hm hs
  · have e0 : wadd 0 strength = strength := by unfold wadd u32Mod; omega
    have e2 : ((miss : Int) + 1) = (((miss + 1 : Nat)) : Int) := by push_cast; ring
    rw [e0, e2, hden_u, i32div_of_nat _ _ (by omega)]

/-- Witness for C10 at `(15, 95, 1, 30)`. -/
theorem score_implementations_agree_witness :
    utils_calculate_score (difference 15 95) 1 ((30 : Nat) : Int) =
      (calculate_score 15 95 1 30).map (fun n : Nat => (n : Int)) :=
  score_implementations_agree 15 95 1 30 (by decide) (by decide) (by decide) (by decide)

end DualGame
